import Mathlib

/-!
Verification of the AAS CI lint core (file discovery, orchestrator,
template-conformance engine) against its natural-language specification.

The TypeScript sources are shallowly embedded: JS strings become `String`,
JS `number` line counters become `Nat` (with `Number.MAX_SAFE_INTEGER`
spelled out where the code uses it), optional fields become `Option`,
thrown exceptions become `Except String`, and the JSON documents the
template engine walks become an inductive `JsonValue`.  `localeCompare`
and `sort` callbacks are modelled by the lexicographic order on `String`
(the code is run with a fixed default locale; only the relative order of
paths and rule ids matters to the spec).  JS `Set`s are modelled as lists
with insert-if-absent at the end, which preserves both membership and
insertion/iteration order.
-/

namespace Aas

/-- A parsed JSON document (`JSON.parse` output), as walked by the
template-conformance engine.  Numbers are modelled as integers (the only
numeric checks in the code are integer comparisons such as
`minOccurrences === 0`). -/
inductive JsonValue where
  | null
  | bool (b : Bool)
  | num (n : Int)
  | str (s : String)
  | arr (elements : List JsonValue)
  | obj (fields : List (String × JsonValue))

/-- JS property access `value[key]` on a parsed JSON value: `none` models
`undefined` (non-object receiver or absent key).  `JSON.parse` objects
have unique keys, so first-match lookup is exact. -/
def jsGet : JsonValue → String → Option JsonValue
  | .obj fields, key => ((fields.find? (fun kv => kv.1 == key)).map (fun kv => kv.2))
  | _, _ => none

/-- Does a value pass JS `value && typeof value === 'object'`? -/
def isJsObject : JsonValue → Bool
  | .obj _ => true
  | .arr _ => true
  | _ => false

/-- Is a value the JS `null` literal? -/
def isNull : JsonValue → Bool
  | .null => true
  | _ => false

/-- JS falsiness of a parsed JSON value (`null`, `false`, `0`, `""`). -/
def jsFalsy : JsonValue → Bool
  | .null => true
  | .bool b => !b
  | .num n => n == 0
  | .str s => s == ""
  | .arr _ => false
  | .obj _ => false

/-- JS string conversion `String(v)` of a parsed JSON value (arrays join
their elements with commas, nulls inside arrays become empty, objects
print as `[object Object]`). -/
def jsToString : JsonValue → String
  | .null => "null"
  | .bool true => "true"
  | .bool false => "false"
  | .num n => n.repr
  | .str s => s
  | .obj _ => "[object Object]"
  | .arr xs => String.intercalate "," (xs.attach.map (fun c =>
      if isNull c.1 then "" else jsToString c.1))
termination_by v => sizeOf v
decreasing_by
  have := List.sizeOf_lt_of_mem c.2
  simp at *
  omega

/-- Severity levels of a finding (`'error' | 'warning' | 'note'`). -/
inductive Severity where
  | error
  | warning
  | note
deriving DecidableEq

/-- Location of a finding (`Location` in the core types): `filePath` is
always present, the remaining fields are optional. -/
structure Location where
  filePath : String
  internalPath : Option String := none
  jsonPointer : Option String := none
  line : Option Nat := none
  column : Option Nat := none

/-- Details attached by the template-conformance engine to a
`missing-element` finding (the only producer of `details` in the core).
`templateName` carries the template submodel's `idShort` verbatim (the
code does not check its type). -/
structure TemplateDetails where
  templateId : String
  templateName : Option JsonValue
  expectedPath : String
  templateSource : String

/-- A validation finding (`Finding` in the core types). -/
structure Finding where
  ruleId : String
  ruleName : String
  severity : Severity
  message : String
  location : Location
  source : String
  details : Option TemplateDetails := none

/-- `Number.MAX_SAFE_INTEGER`, the sort key the orchestrator substitutes
for an undefined `line`. -/
def maxSafeInteger : Nat := 2 ^ 53 - 1

/-- Line sort key of a finding: `a.location.line ?? Number.MAX_SAFE_INTEGER`. -/
def lineKey (f : Finding) : Nat := f.location.line.getD maxSafeInteger

/-- The comparator of `Orchestrator.normalizeFindings`: file path, then
line (undefined sorting last), then rule id.  `localeCompare` is modelled
by the lexicographic order on the character sequences. -/
def findingLE (a b : Finding) : Bool :=
  if a.location.filePath ≠ b.location.filePath then
    decide (a.location.filePath.toList < b.location.filePath.toList)
  else if lineKey a ≠ lineKey b then
    decide (lineKey a < lineKey b)
  else
    decide (a.ruleId.toList ≤ b.ruleId.toList)

/-- The deduplication key of `normalizeFindings`:
`JSON.stringify({filePath, jsonPointer, line, ruleId, message})`.
`JSON.stringify` with this fixed key order is injective on the field
tuple (undefined-valued keys are omitted, but the remaining named keys
still determine the tuple), so the key is modelled as the tuple itself. -/
def findingKey (f : Finding) : String × Option String × Option Nat × String × String :=
  (f.location.filePath, f.location.jsonPointer, f.location.line, f.ruleId, f.message)

/-- The dedup loop of `normalizeFindings`: walk the sorted list, keep a
finding only if its key has not been seen. -/
def dedupLoop (seen : List (String × Option String × Option Nat × String × String)) :
    List Finding → List Finding
  | [] => []
  | f :: rest =>
    if findingKey f ∈ seen then
      dedupLoop seen rest
    else
      f :: dedupLoop (findingKey f :: seen) rest

/-- `Orchestrator.normalizeFindings`: sort by the comparator, then
deduplicate by the composite key. -/
def normalizeFindings (findings : List Finding) : List Finding :=
  dedupLoop [] (findings.mergeSort findingLE)

/-- Lint configuration (`LintConfig` in the core types).  The `engines`
enable map (`{'aas-test-engines'?: boolean, 'template-conformance'?: boolean}`)
is modelled as an association list from engine name to flag. -/
structure LintConfig where
  paths : List String
  exclude : Option (List String) := none
  failOn : List Severity
  templateVersion : Option String := none
  templateDir : Option String := none
  basePath : Option String := none
  engines : Option (List (String × Bool)) := none

/-- A validation engine (the `ValidationEngine` interface): a rejected
`validate` promise is modelled as `Except.error` carrying the failure
message (`error instanceof Error ? error.message : String(error)`). -/
structure Engine where
  name : String
  description : String
  canValidate : String → Bool
  validate : String → LintConfig → Except String (List Finding)

/-- The engine filter of `Orchestrator.lint`:
`(config.engines ?? {})[engine.name] !== false` (absent entry means enabled). -/
def engineEnabled (config : LintConfig) (name : String) : Bool :=
  match (config.engines.getD []).lookup name with
  | some false => false
  | _ => true

/-- The synthetic finding `Orchestrator.validateFile` builds when an
engine throws or rejects. -/
def engineErrorFinding (name filePath msg : String) : Finding :=
  { ruleId := name ++ "/internal/engine-error"
    ruleName := "Engine Error"
    severity := .error
    message := "Validation engine \"" ++ name ++ "\" failed: " ++ msg
    location := { filePath := filePath }
    source := name }

/-- `Orchestrator.validateFile`: run every applicable engine on the file
and flatten the per-engine results (an engine failure contributing its
synthetic error finding). -/
def validateFile (filePath : String) (engines : List Engine) (config : LintConfig) :
    List Finding :=
  ((engines.filter (fun e => e.canValidate filePath)).map (fun e =>
    match e.validate filePath config with
    | .ok fs => fs
    | .error msg => [engineErrorFinding e.name filePath msg])).flatten

/-- Summary block of a `LintResult`. -/
structure Summary where
  errors : Nat
  warnings : Nat
  notes : Nat
  filesScanned : Nat
  filesWithFindings : Nat
deriving DecidableEq

/-- `Orchestrator.computeSummary`: severity counts, number of scanned
files, and the number of distinct file paths among the findings
(`new Set(findings.map(f => f.location.filePath)).size`). -/
def computeSummary (findings : List Finding) (filesScanned : List String) : Summary :=
  { errors := (findings.filter (fun f => decide (f.severity = .error))).length
    warnings := (findings.filter (fun f => decide (f.severity = .warning))).length
    notes := (findings.filter (fun f => decide (f.severity = .note))).length
    filesScanned := filesScanned.length
    filesWithFindings := ((findings.map (fun f => f.location.filePath)).dedup).length }

/-- The engines `Orchestrator.lint` actually runs after applying the
per-engine enable map. -/
def activeEngines (engines : List Engine) (config : LintConfig) : List Engine :=
  engines.filter (fun e => engineEnabled config e.name)

/-- The findings component of `Orchestrator.lint`, given the discovered
file list: per-file validation, then normalization.  (Wall-clock
metadata is outside the model.) -/
def lintFindings (engines : List Engine) (config : LintConfig) (files : List String) :
    List Finding :=
  normalizeFindings (files.flatMap (fun file =>
    validateFile file (activeEngines engines config) config))

/-- The summary component of `Orchestrator.lint`. -/
def lintSummary (engines : List Engine) (config : LintConfig) (files : List String) :
    Summary :=
  computeSummary (lintFindings engines config files) files

/-- JS truthiness on an optional string result (`semanticId ? ... : ...`):
an empty string is falsy. -/
def truthyStr : Option String → Option String
  | some s => if s = "" then none else some s
  | none => none

/-- `getSemanticIdValue`: a semantic identifier may be a bare string, an
object with a string `value` field, or a reference object with a `keys`
array whose first entry carrying a string `value` is taken. -/
def getSemanticIdValue : Option JsonValue → Option String
  | none => none
  | some v =>
    if jsFalsy v then none
    else
      match v with
      | .str s => some s
      | _ =>
        match jsGet v "value" with
        | some (.str s) => some s
        | _ =>
          match jsGet v "keys" with
          | some (.arr keys) =>
            match keys.find? (fun entry =>
                match jsGet entry "value" with
                | some (.str _) => true
                | _ => false) with
            | some entry =>
              match jsGet entry "value" with
              | some (.str s) => some s
              | _ => none
            | none => none
          | _ => none

/-- JS nullish coalescing `a ?? b` on property-access results (`none`
models `undefined`). -/
def jsCoalesce (a b : Option JsonValue) : Option JsonValue :=
  match a with
  | none => b
  | some .null => b
  | some v => some v

/-- The qualifier type string of `isRequired`:
`typeof q.type === 'string' ? q.type : typeof q.type?.value === 'string' ? q.type.value : ''`. -/
def qualifierTypeValue (q : JsonValue) : String :=
  match jsGet q "type" with
  | some (.str s) => s
  | t =>
    match t.bind (fun tv => jsGet tv "value") with
    | some (.str s) => s
    | _ => ""

/-- The qualifier value of `isRequired`: `q.value ?? q.valueType ?? q.kind`. -/
def qualifierRawValue (q : JsonValue) : Option JsonValue :=
  jsCoalesce (jsCoalesce (jsGet q "value") (jsGet q "valueType")) (jsGet q "kind")

/-- JS `String.prototype.toLowerCase` (ASCII lowering, as applied to the
extension strings and qualifier text the code lowercases). -/
def jsToLower (s : String) : String := (s.toList.map Char.toLower).asString

/-- ASCII whitespace as matched by the regex `\s` (the code only ever
feeds it JSON-sourced strings; the Unicode space classes are not
modelled). -/
def jsWhitespace (c : Char) : Bool :=
  c == ' ' || c == '\t' || c == '\n' || c == '\r' || c == '\x0B' || c == '\x0C'

/-- Decimal value of a digit list (as captured by `\d+` and parsed with
`parseInt(_, 10)`). -/
def digitsToNat (ds : List Char) : Nat :=
  ds.foldl (fun a c => a * 10 + (c.toNat - 48)) 0

/-- JS `parseInt(s, 10)`: skip leading whitespace, accept an optional
sign, read leading digits; `NaN` (no digits) is `none`. -/
def jsParseInt (s : String) : Option Int :=
  let cs := s.toList.dropWhile jsWhitespace
  match cs with
  | '-' :: rest =>
    let digits := rest.takeWhile Char.isDigit
    if digits = [] then none else some (-(digitsToNat digits : Int))
  | '+' :: rest =>
    let digits := rest.takeWhile Char.isDigit
    if digits = [] then none else some (digitsToNat digits : Int)
  | _ =>
    let digits := cs.takeWhile Char.isDigit
    if digits = [] then none else some (digitsToNat digits : Int)

/-- Result of `parseCardinality`: `{min, max?}`. -/
structure Cardinality where
  min : Nat
  max : Option Nat
deriving DecidableEq

/-- The regex branch of `parseCardinality`:
`normalized.match(/^(\d+)\.\.(\d+|\*)$/)`. -/
def cardRange (cs : List Char) : Option Cardinality :=
  let digits := cs.takeWhile Char.isDigit
  let rest := cs.dropWhile Char.isDigit
  if digits = [] then none
  else
    match rest with
    | '.' :: '.' :: tail =>
      if tail = ['*'] then some ⟨digitsToNat digits, none⟩
      else if tail ≠ [] && tail.all Char.isDigit then
        some ⟨digitsToNat digits, some (digitsToNat tail)⟩
      else none
    | _ => none

/-- `parseCardinality`: strip whitespace, then recognize `"0"`, `"1"`,
a `"min..max"` range (`max` possibly `*`), or a lexical `"zero…"` /
`"one…"` prefix. -/
def parseCardinality (value : String) : Option Cardinality :=
  if value = "" then none
  else
    let normalized := (value.toList.filter (fun c => !jsWhitespace c)).asString
    if normalized = "0" then some ⟨0, some 0⟩
    else if normalized = "1" then some ⟨1, some 1⟩
    else
      match cardRange normalized.toList with
      | some r => some r
      | none =>
        if normalized.startsWith "zero" then some ⟨0, none⟩
        else if normalized.startsWith "one" then some ⟨1, none⟩
        else none

/-- JS `String.prototype.includes`. -/
def jsIncludes (s sub : String) : Bool :=
  decide (sub.toList <:+: s.toList)

/-- The `String(value ?? '')` conversion feeding `parseCardinality` /
`parseInt` inside `isRequired` (then lowercased). -/
def qualifierValueLower (value : Option JsonValue) : String :=
  jsToLower (match value with
   | none => ""
   | some .null => ""
   | some v => jsToString v)

/-- The qualifier loop of `isRequired`: the first qualifier that encodes
a zero-minimum cardinality (or a `min`-named type with value `0`) makes
the element optional. -/
def qualifiersLoop : List JsonValue → Bool
  | [] => true
  | q :: rest =>
    let typeValue := qualifierTypeValue q
    let value := qualifierRawValue q
    if typeValue = "" ∧ value.isNone then qualifiersLoop rest
    else
      let typeLower := jsToLower typeValue
      let valueLower := qualifierValueLower value
      if (jsIncludes typeLower "cardinality" || jsIncludes typeLower "multiplicity" ||
          jsIncludes typeLower "occurrence") &&
         (match parseCardinality valueLower with
          | some parsed => decide (parsed.min = 0)
          | none => false) then false
      else if jsIncludes typeLower "min" && decide (valueLower ≠ "") &&
              (match jsParseInt valueLower with
               | some m => decide (m = 0)
               | none => false) then false
      else qualifiersLoop rest

/-- `isRequired`: an element is optional when it declares
`minOccurrences === 0` or one of its qualifiers encodes a zero-minimum
occurrence constraint; an element with no qualifiers array is required. -/
def isRequired (element : JsonValue) : Bool :=
  match jsGet element "minOccurrences" with
  | some (.num 0) => false
  | _ =>
    match jsGet element "qualifiers" with
    | some (.arr qualifiers) => qualifiersLoop qualifiers
    | _ => true

/-- Array-valued field access of `extractChildElements`:
`Array.isArray(element[key]) ? element[key] : []`. -/
def arrField (element : JsonValue) (key : String) : List JsonValue :=
  match jsGet element key with
  | some (.arr xs) => xs
  | _ => []

/-- The direct child-array fields pooled by `extractChildElements`. -/
def directArrayKeys : List String :=
  ["submodelElements", "value", "elements", "statements", "annotations"]

/-- The operation-variable fields pooled by `extractChildElements`. -/
def variableKeys : List String :=
  ["inputVariables", "outputVariables", "inoutputVariables"]

/-- An operation variable contributes its `value` sub-object when
`variable?.value && typeof variable.value === 'object'`. -/
def operationVariableValue (v : JsonValue) : Option JsonValue :=
  match jsGet v "value" with
  | some w => if isJsObject w then some w else none
  | none => none

/-- `extractChildElements`: pool children from the direct array fields
and from the operation variable lists. -/
def extractChildElements (element : JsonValue) : List JsonValue :=
  directArrayKeys.flatMap (arrField element) ++
    variableKeys.flatMap (fun key =>
      (arrField element key).filterMap operationVariableValue)

mutual

/-- Executable structural size of a JSON value, the termination measure
of the tree walk. -/
def jsize : JsonValue → Nat
  | .null => 1
  | .bool _ => 1
  | .num _ => 1
  | .str _ => 1
  | .arr xs => 1 + jsizeL xs
  | .obj fields => 1 + jsizeF fields

/-- Size of a list of JSON values. -/
def jsizeL : List JsonValue → Nat
  | [] => 0
  | x :: xs => 1 + jsize x + jsizeL xs

/-- Size of an object field list. -/
def jsizeF : List (String × JsonValue) → Nat
  | [] => 0
  | kv :: fs => 1 + jsize kv.2 + jsizeF fs

end

theorem jsize_pos (v : JsonValue) : 0 < jsize v := by
  cases v <;> simp [jsize]

theorem jsizeL_append (xs ys : List JsonValue) :
    jsizeL (xs ++ ys) = jsizeL xs + jsizeL ys := by
  induction xs with
  | nil => simp [jsizeL]
  | cons x xs ih => simp [jsizeL, ih]; omega

theorem jsize_le_of_mem_jsizeL (v : JsonValue) (xs : List JsonValue) (h : v ∈ xs) :
    1 + jsize v ≤ jsizeL xs := by
  induction xs with
  | nil => simp at h
  | cons x xs ih =>
    rcases List.mem_cons.mp h with rfl | h
    · simp only [jsizeL]; omega
    · have := ih h
      simp only [jsizeL]
      omega

theorem jsize_le_of_mem_jsizeF (kv : String × JsonValue)
    (fs : List (String × JsonValue)) (h : kv ∈ fs) : 1 + jsize kv.2 ≤ jsizeF fs := by
  induction fs with
  | nil => simp at h
  | cons kv0 fs ih =>
    rcases List.mem_cons.mp h with rfl | h
    · simp only [jsizeF]; omega
    · have := ih h
      simp only [jsizeF]
      omega

theorem jsGet_jsize_lt (v : JsonValue) (key : String) (w : JsonValue)
    (h : jsGet v key = some w) : jsize w < jsize v := by
  cases v with
  | obj fields =>
    simp only [jsGet, Option.map_eq_some'] at h
    obtain ⟨kv, hfind, hw⟩ := h
    have hmem := List.mem_of_find?_eq_some hfind
    have hle := jsize_le_of_mem_jsizeF kv fields hmem
    have hsz : jsize (JsonValue.obj fields) = 1 + jsizeF fields := by simp [jsize]
    rw [← hw]
    omega
  | null => simp [jsGet] at h
  | bool b => simp [jsGet] at h
  | num n => simp [jsGet] at h
  | str s => simp [jsGet] at h
  | arr xs => simp [jsGet] at h

/-- Weight of the value a key looks up to in an object field list. -/
def wlookup (fields : List (String × JsonValue)) (key : String) : Nat :=
  match (fields.find? (fun kv => kv.1 == key)).map (fun kv => kv.2) with
  | some v => jsize v
  | none => 0

theorem sum_ite_le (keys : List String) (hnd : keys.Nodup) (k0 : String) (A : Nat)
    (g : String → Nat) :
    ((keys.map (fun k => if k0 == k then A else g k)).sum) ≤ A + (keys.map g).sum := by
  induction keys with
  | nil => simp
  | cons k ks ih =>
    rw [List.nodup_cons] at hnd
    by_cases h : k0 = k
    · subst h
      have hrw : ∀ x ∈ ks, (if k0 == x then A else g x) = g x := by
        intro x hx
        have hne : k0 ≠ x := fun he => hnd.1 (he ▸ hx)
        simp [hne]
      rw [List.map_cons, List.map_cons, List.sum_cons, List.sum_cons,
        List.map_congr_left hrw]
      have hself : (if k0 == k0 then A else g k0) = A := by simp
      rw [hself]
      omega
    · have hmain := ih hnd.2
      have hne : (if k0 == k then A else g k) = g k := by simp [h]
      rw [List.map_cons, List.map_cons, List.sum_cons, List.sum_cons, hne]
      omega

theorem sum_wlookup_le (keys : List String) (hnd : keys.Nodup)
    (fields : List (String × JsonValue)) :
    (keys.map (wlookup fields)).sum ≤ jsizeF fields := by
  induction fields generalizing keys with
  | nil =>
    have hz : ∀ k ∈ keys, wlookup [] k = 0 := by intro k _; rfl
    rw [List.map_congr_left hz]
    simp [jsizeF]
  | cons kv fs ih =>
    have hw : ∀ k, wlookup (kv :: fs) k =
        if kv.1 == k then jsize kv.2 else wlookup fs k := by
      intro k
      by_cases h : kv.1 = k <;> simp [wlookup, List.find?_cons, h]
    calc (keys.map (wlookup (kv :: fs))).sum
        = (keys.map (fun k => if kv.1 == k then jsize kv.2 else wlookup fs k)).sum := by
          rw [List.map_congr_left (fun k _ => hw k)]
      _ ≤ jsize kv.2 + (keys.map (wlookup fs)).sum := sum_ite_le keys hnd kv.1 _ _
      _ ≤ jsize kv.2 + jsizeF fs := Nat.add_le_add_left (ih keys hnd) _
      _ ≤ jsizeF (kv :: fs) := by simp only [jsizeF]; omega

theorem jsizeL_arrField_le (fields : List (String × JsonValue)) (key : String) :
    jsizeL (arrField (JsonValue.obj fields) key) ≤ wlookup fields key := by
  unfold arrField wlookup
  have hg : jsGet (JsonValue.obj fields) key =
      (fields.find? (fun kv => kv.1 == key)).map (fun kv => kv.2) := rfl
  rw [hg]
  cases hfind : (fields.find? (fun kv => kv.1 == key)) with
  | none => simp [jsizeL]
  | some kv =>
    obtain ⟨k1, v⟩ := kv
    cases v <;> simp [jsizeL, jsize]

theorem jsizeL_filterMap_le (xs : List JsonValue) :
    jsizeL (xs.filterMap operationVariableValue) ≤ jsizeL xs := by
  induction xs with
  | nil => simp [jsizeL]
  | cons x xs ih =>
    cases h : operationVariableValue x with
    | none =>
      rw [List.filterMap_cons_none h]
      simp [jsizeL]
      omega
    | some w =>
      have hlt : jsize w < jsize x := by
        unfold operationVariableValue at h
        cases hg : jsGet x "value" with
        | none => rw [hg] at h; exact absurd h (by simp)
        | some w2 =>
          rw [hg] at h
          by_cases ho : isJsObject w2 = true
          · simp [ho] at h
            exact h ▸ jsGet_jsize_lt x "value" w2 hg
          · simp [ho] at h
      rw [List.filterMap_cons_some h]
      simp [jsizeL]
      omega

theorem jsizeL_flatMap (keys : List String) (f : String → List JsonValue) :
    jsizeL (keys.flatMap f) = (keys.map (fun k => jsizeL (f k))).sum := by
  induction keys with
  | nil => simp [jsizeL]
  | cons k ks ih => rw [List.flatMap_cons, jsizeL_append, ih, List.map_cons, List.sum_cons]

theorem jsizeL_extractChildElements_lt (e : JsonValue) :
    jsizeL (extractChildElements e) < jsize e := by
  cases e
  case obj fields =>
    have h1 : jsizeL (directArrayKeys.flatMap (arrField (JsonValue.obj fields))) ≤
        (directArrayKeys.map (wlookup fields)).sum := by
      rw [jsizeL_flatMap]
      exact List.sum_le_sum (fun k _ => jsizeL_arrField_le fields k)
    have h2 : jsizeL (variableKeys.flatMap (fun key =>
        (arrField (JsonValue.obj fields) key).filterMap operationVariableValue)) ≤
        (variableKeys.map (wlookup fields)).sum := by
      rw [jsizeL_flatMap]
      refine List.sum_le_sum (fun k _ => ?_)
      exact le_trans (jsizeL_filterMap_le _) (jsizeL_arrField_le fields k)
    have h3 : (directArrayKeys.map (wlookup fields)).sum +
        (variableKeys.map (wlookup fields)).sum ≤ jsizeF fields := by
      have hcat := sum_wlookup_le (directArrayKeys ++ variableKeys) (by decide) fields
      simpa using hcat
    have h4 : jsize (JsonValue.obj fields) = 1 + jsizeF fields := by simp [jsize]
    unfold extractChildElements
    rw [jsizeL_append]
    omega
  all_goals
    simp [extractChildElements, arrField, jsGet, directArrayKeys, variableKeys,
      jsizeL, jsize]

theorem jsizeL_tail_lt (element : JsonValue) (rest : List JsonValue) :
    jsizeL rest < jsizeL (element :: rest) := by
  simp only [jsizeL]
  have := jsize_pos element
  omega

theorem jsizeL_children_lt (element : JsonValue) (rest : List JsonValue) :
    jsizeL (extractChildElements element) < jsizeL (element :: rest) := by
  have := jsizeL_extractChildElements_lt element
  simp only [jsizeL]
  omega

/-- The two path accumulators of the tree walk (JS `Set`s, modelled as
insertion-ordered duplicate-free lists). -/
structure PathSets where
  idShort : List String
  semantic : List String

/-- `Set.prototype.add`: append if absent. -/
def addPath (paths : List String) (p : String) : List String :=
  if p ∈ paths then paths else paths ++ [p]

/-- The string-typed `idShort` of an element
(`typeof element.idShort === 'string' ? element.idShort : undefined`). -/
def elementIdShort (element : JsonValue) : Option String :=
  match jsGet element "idShort" with
  | some (.str s) => some s
  | _ => none

/-- Requiredness of a node:
`parentRequired && (requiredOnly ? isRequired(element) : true)`. -/
def nodeRequired (element : JsonValue) (parentRequired requiredOnly : Bool) : Bool :=
  parentRequired && (if requiredOnly then isRequired element else true)

/-- `idShort ? [...parentIdShortPath, idShort] : parentIdShortPath`. -/
def nextIdShortPathOf (element : JsonValue) (parentIdShortPath : List String) :
    List String :=
  match truthyStr (elementIdShort element) with
  | some s => parentIdShortPath ++ [s]
  | none => parentIdShortPath

/-- `semanticId ? [...parentSemanticPath, semanticId] : parentSemanticPath`. -/
def nextSemanticPathOf (element : JsonValue) (parentSemanticPath : List String) :
    List String :=
  match truthyStr (getSemanticIdValue (jsGet element "semanticId")) with
  | some s => parentSemanticPath ++ [s]
  | none => parentSemanticPath

/-- The `if (!requiredOnly || required)` contribution block of
`collectPathsRecursive`: add the joined accumulated path for each
identifier kind the node carries. -/
def nodeContribution (element : JsonValue)
    (parentIdShortPath parentSemanticPath : List String) (parentRequired : Bool)
    (pathSets : PathSets) (requiredOnly : Bool) : PathSets :=
  if !requiredOnly || nodeRequired element parentRequired requiredOnly then
    let psA :=
      match truthyStr (elementIdShort element) with
      | some _ =>
        { pathSets with
          idShort := addPath pathSets.idShort
            (String.intercalate "/" (nextIdShortPathOf element parentIdShortPath)) }
      | none => pathSets
    match truthyStr (getSemanticIdValue (jsGet element "semanticId")) with
    | some _ =>
      { psA with
        semantic := addPath psA.semantic
          (String.intercalate "/" (nextSemanticPathOf element parentSemanticPath)) }
    | none => psA
  else pathSets

/-- `collectPathsRecursive`: walk submodel elements, tracking idShort and
semantic-id path accumulators and (in `requiredOnly` mode) conjunctively
inherited requiredness; a node contributes its accumulated joined path
for each identifier kind it carries, then its pooled children are
visited, then its siblings. -/
def collectPathsRecursive (elements : List JsonValue)
    (parentIdShortPath parentSemanticPath : List String) (parentRequired : Bool)
    (pathSets : PathSets) (requiredOnly : Bool) : PathSets :=
  match elements with
  | [] => pathSets
  | element :: rest =>
    if isJsObject element = false then
      collectPathsRecursive rest parentIdShortPath parentSemanticPath parentRequired
        pathSets requiredOnly
    else
      let ps1 := nodeContribution element parentIdShortPath parentSemanticPath
        parentRequired pathSets requiredOnly
      let children := extractChildElements element
      let ps2 :=
        if children.length > 0 then
          collectPathsRecursive children (nextIdShortPathOf element parentIdShortPath)
            (nextSemanticPathOf element parentSemanticPath)
            (nodeRequired element parentRequired requiredOnly) ps1 requiredOnly
        else ps1
      collectPathsRecursive rest parentIdShortPath parentSemanticPath parentRequired
        ps2 requiredOnly
termination_by jsizeL elements
decreasing_by
  all_goals first
    | exact jsizeL_children_lt _ _
    | exact jsizeL_tail_lt _ _

/-- Unfolding step: the empty element list leaves the accumulator. -/
theorem collect_nil (pI pS : List String) (pr : Bool) (ps : PathSets) (ro : Bool) :
    collectPathsRecursive [] pI pS pr ps ro = ps := by
  rw [collectPathsRecursive]

/-- Unfolding step: a non-object element is skipped. -/
theorem collect_cons_nonobj (element : JsonValue) (rest : List JsonValue)
    (pI pS : List String) (pr : Bool) (ps : PathSets) (ro : Bool)
    (h : isJsObject element = false) :
    collectPathsRecursive (element :: rest) pI pS pr ps ro =
      collectPathsRecursive rest pI pS pr ps ro := by
  rw [collectPathsRecursive]
  simp [h]

/-- Unfolding step: an object element contributes, then its children are
walked, then its siblings. -/
theorem collect_cons_obj (element : JsonValue) (rest : List JsonValue)
    (pI pS : List String) (pr : Bool) (ps : PathSets) (ro : Bool)
    (h : isJsObject element = true) :
    collectPathsRecursive (element :: rest) pI pS pr ps ro =
      collectPathsRecursive rest pI pS pr
        (if (extractChildElements element).length > 0 then
          collectPathsRecursive (extractChildElements element)
            (nextIdShortPathOf element pI) (nextSemanticPathOf element pS)
            (nodeRequired element pr ro)
            (nodeContribution element pI pS pr ps ro) ro
         else nodeContribution element pI pS pr ps ro) ro := by
  conv_lhs => rw [collectPathsRecursive]
  simp [h]

/-- `collectTemplatePaths`: required-only walk from a template submodel's
top-level elements. -/
def collectTemplatePaths (submodelElements : List JsonValue) : PathSets :=
  collectPathsRecursive submodelElements [] [] true ⟨[], []⟩ true

/-- `collectInstancePaths`: collect every identifier path an instance
submodel actually contains. -/
def collectInstancePaths (submodelElements : List JsonValue) : PathSets :=
  collectPathsRecursive submodelElements [] [] true ⟨[], []⟩ false


/-- An indexed template (`TemplateSpec`): required path sets are JS `Set`s,
modelled as insertion-ordered lists; `name` carries the template
submodel's `idShort` verbatim. -/
structure TemplateSpec where
  id : String
  name : Option JsonValue
  requiredIdShortPaths : List String
  requiredSemanticPaths : List String
  sourcePath : String

/-- `Map.prototype.get` on the template index (JS `Map`s preserve
insertion order; the index is an insertion-ordered association list). -/
def lookupSpec (index : List (String × TemplateSpec)) (key : String) : Option TemplateSpec :=
  (index.find? (fun kv => kv.1 == key)).map (fun kv => kv.2)

/-- `Map.prototype.has` on the template index. -/
def hasSpec (index : List (String × TemplateSpec)) (key : String) : Bool :=
  (lookupSpec index key).isSome

/-- The `TemplateSpec` built by `loadTemplates` for one template submodel. -/
def mkTemplateSpec (templateId : String) (submodel : JsonValue) (sourcePath : String) :
    TemplateSpec :=
  let requiredPaths := collectTemplatePaths (arrField submodel "submodelElements")
  { id := templateId
    name := jsGet submodel "idShort"
    requiredIdShortPaths := requiredPaths.idShort
    requiredSemanticPaths := requiredPaths.semantic
    sourcePath := sourcePath }

/-- `templateIndex.set(templateId, …)` guarded by
`templateIndex.has(templateId)`: insert if absent. -/
def insertIfAbsent (index : List (String × TemplateSpec)) (c : String × TemplateSpec) :
    List (String × TemplateSpec) :=
  if hasSpec index c.1 then index else index ++ [c]

/-- The inner submodel loop of `loadTemplates`. -/
def registerSubmodels (sourcePath : String) (submodels : List JsonValue)
    (index : List (String × TemplateSpec)) : List (String × TemplateSpec) :=
  submodels.foldl (fun idx submodel =>
    match truthyStr (getSemanticIdValue (jsGet submodel "semanticId")) with
    | none => idx
    | some templateId =>
      insertIfAbsent idx (templateId, mkTemplateSpec templateId submodel sourcePath)) index

/-- The pinned-version filter of `loadTemplates`:
`templateVersion && templateVersion !== 'latest' ? templateVersion : undefined`. -/
def normalizedVersion (templateVersion : Option String) : Option String :=
  match templateVersion with
  | some v => if v ≠ "" ∧ v ≠ "latest" then some v else none
  | none => none

/-- The pinned-version file filter of `loadTemplates`:
`normalizedVersion && !filePath.includes(normalizedVersion)`. -/
def versionSkip (nv : Option String) (filePath : String) : Bool :=
  match nv with
  | some v => !jsIncludes filePath v
  | none => false

/-- `loadTemplates`, over the file list the glob enumeration returned
(`fsys` models `safeReadJson`: parse result, or `none` on read/parse
failure). -/
def loadTemplates (files : List String) (fsys : String → Option JsonValue)
    (templateVersion : Option String) : List (String × TemplateSpec) :=
  let nv := normalizedVersion templateVersion
  files.foldl (fun idx filePath =>
    if versionSkip nv filePath then idx
    else
      match fsys filePath with
      | none => idx
      | some data =>
        if jsFalsy data then idx
        else
          match jsGet data "submodels" with
          | some (.arr submodels) => registerSubmodels filePath submodels idx
          | _ => idx) []

/-- Specification-side view of template indexing for the first-wins
claim: the stream of `(semanticId, spec)` registration candidates in scan
order, before duplicate suppression. -/
def templateCandidates (files : List String) (fsys : String → Option JsonValue)
    (templateVersion : Option String) : List (String × TemplateSpec) :=
  let nv := normalizedVersion templateVersion
  files.flatMap (fun filePath =>
    if versionSkip nv filePath then []
    else
      match fsys filePath with
      | none => []
      | some data =>
        if jsFalsy data then []
        else
          match jsGet data "submodels" with
          | some (.arr submodels) =>
            submodels.filterMap (fun submodel =>
              (truthyStr (getSemanticIdValue (jsGet submodel "semanticId"))).map
                (fun templateId => (templateId, mkTemplateSpec templateId submodel filePath)))
          | _ => [])

/-- Decimal digit list of a natural number (the JS template-literal
rendering `${index}`). -/
def natDigits (n : Nat) : List Char :=
  if n < 10 then [Char.ofNat (48 + n)]
  else natDigits (n / 10) ++ [Char.ofNat (48 + n % 10)]
termination_by n
decreasing_by
  exact Nat.div_lt_self (by omega) (by omega)

/-- Decimal rendering of a natural number, as interpolated into the
JSON pointer `/submodels/${index}`. -/
def jsNatString (n : Nat) : String := (natDigits n).asString

/-- Engine name of the template conformance engine. -/
def templateEngineName : String := "template-conformance"

/-- `${template.name ?? template.id}` in the missing-element message. -/
def templateDisplayName (template : TemplateSpec) : String :=
  match template.name with
  | none => template.id
  | some .null => template.id
  | some v => jsToString v

/-- The `missing-element` finding the template engine emits for one
required path absent from an instance submodel. -/
def missingElementFinding (baseLocation : Location) (template : TemplateSpec)
    (requiredPath : String) : Finding :=
  { ruleId := templateEngineName ++ "/missing-element"
    ruleName := "Missing Template Element"
    severity := .error
    message := "Missing required template element \"" ++ requiredPath ++
      "\" for template " ++ templateDisplayName template ++ "."
    location := baseLocation
    source := templateEngineName
    details := some
      { templateId := template.id
        templateName := template.name
        expectedPath := requiredPath
        templateSource := template.sourcePath } }

/-- The single `templates-not-found` note of `validate` (emitted at most
once per engine instance when template checking was requested but no
directory resolved). -/
def templatesNotFoundFinding (filePath : String) : Finding :=
  { ruleId := templateEngineName ++ "/templates-not-found"
    ruleName := "Templates Not Found"
    severity := .note
    message := "Template validation skipped: no templates directory configured. Set AAS_CI_LINT_TEMPLATE_DIR or use --template-dir to enable template checks."
    location := { filePath := filePath }
    source := templateEngineName }

/-- The number of slash-separated segments of a rule identifier; the
spec's documented "engine/category/code" format means this is 3.  (This
definition renders the spec's format claim; the finding constructors above
are the code side.) -/
def ruleIdSegmentCount (s : String) : Nat :=
  (s.toList.filter (fun c => c == '/')).length + 1

/-- The findings `validate` produces for the submodel at one index of the
instance document. -/
def submodelTemplateFindings (index : List (String × TemplateSpec)) (filePath : String)
    (internalPath : Option String) (idx : Nat) (submodel : JsonValue) : List Finding :=
  match truthyStr (getSemanticIdValue (jsGet submodel "semanticId")) with
  | none => []
  | some templateId =>
    match lookupSpec index templateId with
    | none => []
    | some template =>
      let instancePaths := collectInstancePaths (arrField submodel "submodelElements")
      let baseLocation : Location :=
        { filePath := filePath, internalPath := internalPath,
          jsonPointer := some ("/submodels/" ++ jsNatString idx) }
      (template.requiredIdShortPaths.filterMap (fun requiredPath =>
        if requiredPath ∉ instancePaths.idShort ∧ requiredPath ∉ instancePaths.semantic then
          some (missingElementFinding baseLocation template requiredPath)
        else none)) ++
      (template.requiredSemanticPaths.filterMap (fun requiredPath =>
        if requiredPath ∉ instancePaths.semantic ∧ requiredPath ∉ instancePaths.idShort then
          some (missingElementFinding baseLocation template requiredPath)
        else none))

/-- The per-file validation loop of `TemplateConformanceEngine.validate`
over a parsed environment document (`submodels.forEach`). -/
def validateEnvironment (index : List (String × TemplateSpec)) (filePath : String)
    (internalPath : Option String) (data : JsonValue) : List Finding :=
  (arrField data "submodels").enum.flatMap (fun p =>
    submodelTemplateFindings index filePath internalPath p.1 p.2)

/-- Node `path.extname`, lowercased by all callers separately: the
extension of the basename from its last dot, empty when the basename has
no dot or only a leading dot. -/
def extname (p : String) : String :=
  let revBase := p.toList.reverse.takeWhile (fun c => c ≠ '/')
  let afterDotRev := revBase.takeWhile (fun c => c ≠ '.')
  if afterDotRev.length = revBase.length then ""
  else if afterDotRev.length + 1 = revBase.length then ""
  else ('.' :: afterDotRev.reverse).asString

/-- `TemplateConformanceEngine.canValidate`: `.aasx`, `.json`, `.xml`
(case-insensitive extension). -/
def TemplateConformanceEngine.canValidate (filePath : String) : Bool :=
  [".aasx", ".json", ".xml"].contains (jsToLower (extname filePath))

/-- `loadEnvironment`: `.xml` yields nothing; `.json` parses the file
(falsy parse results rejected); `.aasx` extraction/location/parsing is
external I/O, modelled by the `aasxEnv` oracle returning the parsed
environment and its archive-internal path. -/
def loadEnvironment (fsys : String → Option JsonValue)
    (aasxEnv : String → Option (JsonValue × String)) (filePath : String) :
    Option (JsonValue × Option String) :=
  let ext := jsToLower (extname filePath)
  if ext = ".xml" then none
  else if ext = ".json" then
    match fsys filePath with
    | none => none
    | some data => if jsFalsy data then none else some (data, none)
  else if ext = ".aasx" then
    (aasxEnv filePath).map (fun de => (de.1, some de.2))
  else none

/-- The body of `TemplateConformanceEngine.validate` after a template
directory has been resolved and the index loaded: an empty index or an
unloadable environment yields no findings. -/
def validateCore (index : List (String × TemplateSpec))
    (fsys : String → Option JsonValue) (aasxEnv : String → Option (JsonValue × String))
    (filePath : String) : List Finding :=
  if index.isEmpty then []
  else
    match loadEnvironment fsys aasxEnv filePath with
    | none => []
    | some (data, internalPath) => validateEnvironment index filePath internalPath data

/-- The supported discovery extensions. -/
def SUPPORTED_EXTENSIONS : List String := [".aasx", ".json", ".xml"]

/-- `looksLikeAasJson`: the parsed file has at least one AAS marker key
mapping to an array (`fsys` models read + `JSON.parse`, `none` on any
failure, which the code converts to `false`). -/
def looksLikeAasJson (fsys : String → Option JsonValue) (filePath : String) : Bool :=
  match fsys filePath with
  | none => false
  | some parsed =>
    ["assetAdministrationShells", "submodels", "conceptDescriptions"].any (fun key =>
      match jsGet parsed key with
      | some (.arr _) => true
      | _ => false)

/-- `discoverFiles` downstream of the glob call (`globFiles` is what
`fastGlob` returned): extension filter, JSON content sniff, then
lexicographic sort. -/
def discoverFiles (globFiles : List String) (fsys : String → Option JsonValue) :
    List String :=
  let aasFiles := globFiles.filter (fun file =>
    SUPPORTED_EXTENSIONS.contains (jsToLower (extname file)))
  let validatedFiles := aasFiles.filter (fun file =>
    if jsToLower (extname file) = ".json" then looksLikeAasJson fsys file else true)
  validatedFiles.mergeSort (fun a b => decide (a.toList ≤ b.toList))


/-- Numeric value of a decimal digit character. -/
def charDigitVal (c : Char) : Nat := c.toNat - 48

/-- Decimal reading of a digit list (left inverse of `natDigits`). -/
def undigits (ds : List Char) : Nat :=
  ds.foldl (fun a c => a * 10 + charDigitVal c) 0

theorem mem_addPath_self (l : List String) (p : String) : p ∈ addPath l p := by
  unfold addPath
  split
  · assumption
  · simp

theorem mem_addPath_of_mem (l : List String) (p q : String) (h : q ∈ l) :
    q ∈ addPath l p := by
  unfold addPath
  split
  · exact h
  · simp [h]

theorem nodeContribution_mono (element : JsonValue) (pI pS : List String) (pr : Bool)
    (ps : PathSets) (ro : Bool) :
    (∀ x ∈ ps.idShort, x ∈ (nodeContribution element pI pS pr ps ro).idShort) ∧
    (∀ x ∈ ps.semantic, x ∈ (nodeContribution element pI pS pr ps ro).semantic) := by
  unfold nodeContribution
  split
  · cases truthyStr (elementIdShort element) <;>
      cases truthyStr (getSemanticIdValue (jsGet element "semanticId")) <;>
      constructor <;>
      intro x hx <;>
      simp <;>
      first
        | exact hx
        | exact mem_addPath_of_mem _ _ _ hx
  · exact ⟨fun x hx => hx, fun x hx => hx⟩

theorem bool_eq_true_of_not_eq_false (b : Bool) (h : ¬b = false) : b = true := by
  cases b
  · exact absurd rfl h
  · rfl

theorem jsizeL_cons_bound (element : JsonValue) (rest : List JsonValue) (n : Nat)
    (h : jsizeL (element :: rest) ≤ n + 1) :
    jsizeL rest ≤ n ∧ jsizeL (extractChildElements element) ≤ n := by
  have h1 : jsizeL (element :: rest) = 1 + jsize element + jsizeL rest := by
    simp only [jsizeL]
  have h2 := jsize_pos element
  have h3 := jsizeL_extractChildElements_lt element
  omega

theorem collect_mono_fuel (n : Nat) : ∀ (elements : List JsonValue)
    (pI pS : List String) (pr : Bool) (ps : PathSets) (ro : Bool),
    jsizeL elements ≤ n →
    (∀ x ∈ ps.idShort, x ∈ (collectPathsRecursive elements pI pS pr ps ro).idShort) ∧
    (∀ x ∈ ps.semantic, x ∈ (collectPathsRecursive elements pI pS pr ps ro).semantic) := by
  induction n with
  | zero =>
    intro elements pI pS pr ps ro hle
    cases elements with
    | nil => rw [collect_nil]; exact ⟨fun x hx => hx, fun x hx => hx⟩
    | cons element rest =>
      exfalso
      have h1 : jsizeL (element :: rest) = 1 + jsize element + jsizeL rest := by
        simp only [jsizeL]
      omega
  | succ n ih =>
    intro elements pI pS pr ps ro hle
    cases elements with
    | nil => rw [collect_nil]; exact ⟨fun x hx => hx, fun x hx => hx⟩
    | cons element rest =>
      obtain ⟨hrest, hch⟩ := jsizeL_cons_bound element rest n hle
      by_cases hobj : isJsObject element = true
      · rw [collect_cons_obj _ _ _ _ _ _ _ hobj]
        have cmono := nodeContribution_mono element pI pS pr ps ro
        by_cases hlen : (extractChildElements element).length > 0
        · rw [if_pos hlen]
          have imono := ih (extractChildElements element) (nextIdShortPathOf element pI)
            (nextSemanticPathOf element pS) (nodeRequired element pr ro)
            (nodeContribution element pI pS pr ps ro) ro hch
          have rmono := ih rest pI pS pr
            (collectPathsRecursive (extractChildElements element)
              (nextIdShortPathOf element pI) (nextSemanticPathOf element pS)
              (nodeRequired element pr ro) (nodeContribution element pI pS pr ps ro) ro)
            ro hrest
          exact ⟨fun x hx => rmono.1 x (imono.1 x (cmono.1 x hx)),
                 fun x hx => rmono.2 x (imono.2 x (cmono.2 x hx))⟩
        · rw [if_neg hlen]
          have rmono := ih rest pI pS pr (nodeContribution element pI pS pr ps ro) ro hrest
          exact ⟨fun x hx => rmono.1 x (cmono.1 x hx),
                 fun x hx => rmono.2 x (cmono.2 x hx)⟩
      · have hobj2 : isJsObject element = false := by
          cases hb : isJsObject element
          · rfl
          · exact absurd hb hobj
        rw [collect_cons_nonobj _ _ _ _ _ _ _ hobj2]
        exact ih rest pI pS pr ps ro hrest

theorem collect_mono (elements : List JsonValue) (pI pS : List String) (pr : Bool)
    (ps : PathSets) (ro : Bool) :
    (∀ x ∈ ps.idShort, x ∈ (collectPathsRecursive elements pI pS pr ps ro).idShort) ∧
    (∀ x ∈ ps.semantic, x ∈ (collectPathsRecursive elements pI pS pr ps ro).semantic) :=
  collect_mono_fuel (jsizeL elements) elements pI pS pr ps ro le_rfl

theorem nodeContribution_not_required (element : JsonValue) (pI pS : List String)
    (ps : PathSets) (hr : nodeRequired element false true = false := by simp [nodeRequired]) :
    nodeContribution element pI pS false ps true = ps := by
  unfold nodeContribution
  rw [hr]
  simp

theorem collect_parent_not_required_fuel (n : Nat) : ∀ (elements : List JsonValue)
    (pI pS : List String) (ps : PathSets),
    jsizeL elements ≤ n →
    collectPathsRecursive elements pI pS false ps true = ps := by
  induction n with
  | zero =>
    intro elements pI pS ps hle
    cases elements with
    | nil => exact collect_nil pI pS false ps true
    | cons element rest =>
      exfalso
      have h1 : jsizeL (element :: rest) = 1 + jsize element + jsizeL rest := by
        simp only [jsizeL]
      omega
  | succ n ih =>
    intro elements pI pS ps hle
    cases elements with
    | nil => exact collect_nil pI pS false ps true
    | cons element rest =>
      obtain ⟨hrest, hch⟩ := jsizeL_cons_bound element rest n hle
      by_cases hobj : isJsObject element = true
      · rw [collect_cons_obj _ _ _ _ _ _ _ hobj]
        have hreq : nodeRequired element false true = false := by simp [nodeRequired]
        have hc : nodeContribution element pI pS false ps true = ps :=
          nodeContribution_not_required element pI pS ps
        rw [hc]
        have hkill : ∀ psx : PathSets,
            collectPathsRecursive (extractChildElements element)
              (nextIdShortPathOf element pI) (nextSemanticPathOf element pS)
              (nodeRequired element false true) psx true = psx := by
          intro psx
          rw [hreq]
          exact ih (extractChildElements element) _ _ psx hch
        rw [hkill ps]
        have hboth : (if (extractChildElements element).length > 0 then ps else ps) = ps := by
          split <;> rfl
        rw [hboth]
        exact ih rest pI pS ps hrest
      · have hobj2 : isJsObject element = false := by
          cases hb : isJsObject element
          · rfl
          · exact absurd hb hobj
        rw [collect_cons_nonobj _ _ _ _ _ _ _ hobj2]
        exact ih rest pI pS ps hrest

theorem collect_parent_not_required (elements : List JsonValue) (pI pS : List String)
    (ps : PathSets) :
    collectPathsRecursive elements pI pS false ps true = ps :=
  collect_parent_not_required_fuel (jsizeL elements) elements pI pS ps le_rfl

theorem qualifiersLoop_eq_false (qs : List JsonValue) (q : JsonValue) (hq : q ∈ qs)
    (hcard : jsIncludes (jsToLower (qualifierTypeValue q)) "cardinality" = true ∨
             jsIncludes (jsToLower (qualifierTypeValue q)) "multiplicity" = true ∨
             jsIncludes (jsToLower (qualifierTypeValue q)) "occurrence" = true)
    (c : Cardinality)
    (hparse : parseCardinality (qualifierValueLower (qualifierRawValue q)) = some c)
    (hmin : c.min = 0) :
    qualifiersLoop qs = false := by
  induction qs with
  | nil => simp at hq
  | cons q0 rest ih =>
    rcases List.mem_cons.mp hq with rfl | hq2
    · have hne : ¬(qualifierTypeValue q = "" ∧ (qualifierRawValue q).isNone) := by
        rintro ⟨h1, _⟩
        rw [h1] at hcard
        revert hcard
        decide
      simp only [qualifiersLoop]
      rw [if_neg hne]
      have hcond : ((jsIncludes (jsToLower (qualifierTypeValue q)) "cardinality" ||
          jsIncludes (jsToLower (qualifierTypeValue q)) "multiplicity" ||
          jsIncludes (jsToLower (qualifierTypeValue q)) "occurrence") &&
         (match parseCardinality (qualifierValueLower (qualifierRawValue q)) with
          | some parsed => decide (parsed.min = 0)
          | none => false)) = true := by
        rw [hparse]
        rcases hcard with h | h | h <;> simp [h, hmin]
      rw [if_pos hcond]
    · simp only [qualifiersLoop]
      split
      · exact ih hq2
      · split
        · rfl
        · split
          · rfl
          · exact ih hq2

theorem isRequired_false_of_minOccurrences_zero (e : JsonValue)
    (h : jsGet e "minOccurrences" = some (.num 0)) : isRequired e = false := by
  unfold isRequired
  rw [h]
  rfl

theorem isRequired_false_of_zero_cardinality_qualifier (e : JsonValue)
    (qs : List JsonValue) (q : JsonValue)
    (hqs : jsGet e "qualifiers" = some (.arr qs)) (hq : q ∈ qs)
    (hcard : jsIncludes (jsToLower (qualifierTypeValue q)) "cardinality" = true ∨
             jsIncludes (jsToLower (qualifierTypeValue q)) "multiplicity" = true ∨
             jsIncludes (jsToLower (qualifierTypeValue q)) "occurrence" = true)
    (c : Cardinality)
    (hparse : parseCardinality (qualifierValueLower (qualifierRawValue q)) = some c)
    (hmin : c.min = 0) :
    isRequired e = false := by
  unfold isRequired
  split
  · rfl
  · rw [hqs]
    exact qualifiersLoop_eq_false qs q hq hcard c hparse hmin

theorem isRequired_true_of_absent (e : JsonValue)
    (hmo : jsGet e "minOccurrences" = none) (hq : jsGet e "qualifiers" = none) :
    isRequired e = true := by
  unfold isRequired
  rw [hmo, hq]

theorem collect_single_optional (e : JsonValue) (pI pS : List String) (pr : Bool)
    (ps : PathSets) (hr : isRequired e = false) :
    collectPathsRecursive [e] pI pS pr ps true = ps := by
  by_cases hobj : isJsObject e = true
  · rw [collect_cons_obj _ _ _ _ _ _ _ hobj]
    have hreq : nodeRequired e pr true = false := by simp [nodeRequired, hr]
    have hcontrib : nodeContribution e pI pS pr ps true = ps := by
      unfold nodeContribution
      rw [hreq]
      simp
    rw [collect_nil]
    split
    · rw [hreq, hcontrib]
      exact collect_parent_not_required _ _ _ _
    · exact hcontrib
  · have hobj2 : isJsObject e = false := by
      cases hb : isJsObject e
      · rfl
      · exact absurd hb hobj
    rw [collect_cons_nonobj _ _ _ _ _ _ _ hobj2, collect_nil]

/-- Claim C3: in the template-indexing (requiredOnly) walk, an element
carrying a qualifier whose type names a cardinality/multiplicity/occurrence
constraint parsing to minimum 0, or declaring `minOccurrences === 0`,
contributes no path and neither does any of its descendants (requiredness
is inherited conjunctively); an element with no `qualifiers` and no
`minOccurrences` field, whose ancestors are all required, contributes its
accumulated idShort path. -/
theorem C3_template_requiredness :
    (∀ (e : JsonValue) (pI pS : List String) (pr : Bool) (ps : PathSets),
      (jsGet e "minOccurrences" = some (.num 0) ∨
        ∃ qs, jsGet e "qualifiers" = some (.arr qs) ∧
          ∃ q ∈ qs,
            (jsIncludes (jsToLower (qualifierTypeValue q)) "cardinality" = true ∨
             jsIncludes (jsToLower (qualifierTypeValue q)) "multiplicity" = true ∨
             jsIncludes (jsToLower (qualifierTypeValue q)) "occurrence" = true) ∧
            ∃ c, parseCardinality (qualifierValueLower (qualifierRawValue q)) = some c ∧
              c.min = 0) →
      collectPathsRecursive [e] pI pS pr ps true = ps) ∧
    (∀ (e : JsonValue) (pI pS : List String) (ps : PathSets) (s : String),
      jsGet e "qualifiers" = none → jsGet e "minOccurrences" = none →
      jsGet e "idShort" = some (.str s) → s ≠ "" →
      String.intercalate "/" (pI ++ [s]) ∈
        (collectPathsRecursive [e] pI pS true ps true).idShort) := by
  constructor
  · intro e pI pS pr ps hopt
    have hr : isRequired e = false := by
      rcases hopt with h | ⟨qs, hqs, q, hq, hcard, c, hparse, hmin⟩
      · exact isRequired_false_of_minOccurrences_zero e h
      · exact isRequired_false_of_zero_cardinality_qualifier e qs q hqs hq hcard c hparse hmin
    exact collect_single_optional e pI pS pr ps hr
  · intro e pI pS ps s hq hmo hid hs
    have hobj : isJsObject e = true := by
      cases e <;> simp [jsGet, isJsObject] at hid ⊢
    have hr : isRequired e = true := isRequired_true_of_absent e hmo hq
    rw [collect_cons_obj _ _ _ _ _ _ _ hobj, collect_nil]
    have hreq : nodeRequired e true true = true := by simp [nodeRequired, hr]
    have htr : truthyStr (elementIdShort e) = some s := by
      simp [elementIdShort, hid, truthyStr, hs]
    have hmem : String.intercalate "/" (pI ++ [s]) ∈
        (nodeContribution e pI pS true ps true).idShort := by
      unfold nodeContribution
      have hcondtrue : (!true || nodeRequired e true true) = true := by simp [hreq]
      rw [if_pos hcondtrue, htr]
      cases hsem : truthyStr (getSemanticIdValue (jsGet e "semanticId")) <;>
        simp [nextIdShortPathOf, htr] <;>
        exact mem_addPath_self _ _
    split
    · exact (collect_mono _ _ _ _ _ _).1 _ hmem
    · exact hmem

/-- Witness for C3: a `Multiplicity 0..1` qualifier suppresses the
element; a bare `idShort`-only element contributes its path. -/
theorem C3_witness :
    collectPathsRecursive
      [JsonValue.obj [("qualifiers", JsonValue.arr
        [JsonValue.obj [("type", JsonValue.str "Multiplicity"),
                        ("value", JsonValue.str "0..1")]])]]
      [] [] true ⟨[], []⟩ true = ⟨[], []⟩ ∧
    String.intercalate "/" ([] ++ ["Manufacturer"]) ∈
      (collectPathsRecursive [JsonValue.obj [("idShort", JsonValue.str "Manufacturer")]]
        [] [] true ⟨[], []⟩ true).idShort :=
  ⟨C3_template_requiredness.1
      (JsonValue.obj [("qualifiers", JsonValue.arr
        [JsonValue.obj [("type", JsonValue.str "Multiplicity"),
                        ("value", JsonValue.str "0..1")]])])
      [] [] true ⟨[], []⟩
      (Or.inr ⟨[JsonValue.obj [("type", JsonValue.str "Multiplicity"),
                                ("value", JsonValue.str "0..1")]],
        rfl,
        JsonValue.obj [("type", JsonValue.str "Multiplicity"),
                       ("value", JsonValue.str "0..1")],
        List.mem_cons_self _ _,
        Or.inr (Or.inl (by decide)),
        ⟨0, some 1⟩,
        by
          have h1 : qualifierRawValue (JsonValue.obj
              [("type", JsonValue.str "Multiplicity"),
               ("value", JsonValue.str "0..1")]) = some (JsonValue.str "0..1") := rfl
          have h2 : jsToString (JsonValue.str "0..1") = "0..1" := by simp [jsToString]
          rw [h1]
          simp only [qualifierValueLower, h2]
          decide,
        rfl⟩),
    C3_template_requiredness.2
      (JsonValue.obj [("idShort", JsonValue.str "Manufacturer")])
      [] [] ⟨[], []⟩ "Manufacturer" rfl rfl rfl (by decide)⟩

/-- Claim C5: semantic-ID extraction maps all three representation forms
of the same identifier X to the same string X — a bare string, an object
with a `value` field, and a reference object whose first `keys` entry
carrying a string value is X — so templates indexed under any form match
instances using any form. -/
theorem C5_semantic_id_forms (X : String) (hX : X ≠ "") :
    getSemanticIdValue (some (.str X)) = some X ∧
    getSemanticIdValue (some (.obj [("value", .str X)])) = some X ∧
    (∀ (pre post : List JsonValue) (k : JsonValue),
      (∀ e ∈ pre, ∀ s, jsGet e "value" ≠ some (.str s)) →
      jsGet k "value" = some (.str X) →
      getSemanticIdValue (some (.obj [("keys", .arr (pre ++ k :: post))])) = some X) := by
  refine ⟨?_, ?_, ?_⟩
  · simp [getSemanticIdValue, jsFalsy, hX]
  · rfl
  · intro pre post k hpre hk
    have hfind : (pre ++ k :: post).find? (fun entry =>
        match jsGet entry "value" with
        | some (.str _) => true
        | _ => false) = some k := by
      rw [List.find?_append]
      have hnone : pre.find? (fun entry =>
          match jsGet entry "value" with
          | some (.str _) => true
          | _ => false) = none := by
        rw [List.find?_eq_none]
        intro x hx hpx
        cases hg : jsGet x "value" with
        | none => rw [hg] at hpx; simp at hpx
        | some w =>
          cases w <;> rw [hg] at hpx <;> simp at hpx
          next s => exact hpre x hx s hg
      rw [hnone]
      have hpk : (fun entry =>
          match jsGet entry "value" with
          | some (.str _) => true
          | _ => false) k = true := by
        show (match jsGet k "value" with
          | some (.str _) => true
          | _ => false) = true
        rw [hk]
      rw [Option.none_or]
      exact List.find?_cons_of_pos _ hpk
    show (match (pre ++ k :: post).find? (fun entry =>
        match jsGet entry "value" with
        | some (.str _) => true
        | _ => false) with
      | some entry =>
        match jsGet entry "value" with
        | some (.str s) => some s
        | _ => none
      | none => none) = some X
    rw [hfind]
    show (match jsGet k "value" with
      | some (.str s) => some s
      | _ => none) = some X
    rw [hk]

/-- Witness for C5 at the identifier `urn:aas:1`, with a non-string first
keys entry preceding the matching one. -/
theorem C5_witness :
    getSemanticIdValue (some (.str "urn:aas:1")) = some "urn:aas:1" ∧
    getSemanticIdValue (some (.obj [("value", .str "urn:aas:1")])) = some "urn:aas:1" ∧
    getSemanticIdValue (some (.obj [("keys", .arr
      ([JsonValue.num 3] ++ JsonValue.obj [("value", JsonValue.str "urn:aas:1")] :: []))])) =
      some "urn:aas:1" := by
  obtain ⟨h1, h2, h3⟩ := C5_semantic_id_forms "urn:aas:1" (by decide)
  exact ⟨h1, h2, h3 [JsonValue.num 3] [] (JsonValue.obj [("value", JsonValue.str "urn:aas:1")])
    (by intro e he s; simp at he; subst he; simp [jsGet]) rfl⟩

/-- Claim C10: every `.xml` path (case-insensitive) passes
`TemplateConformanceEngine.canValidate`, yet with a resolved template
directory and a non-empty index `validate` returns no findings, because
`loadEnvironment` yields nothing for XML input. -/
theorem C10_xml_accepted_never_checked (filePath : String)
    (hx : jsToLower (extname filePath) = ".xml")
    (index : List (String × TemplateSpec)) (fsys : String → Option JsonValue)
    (aasxEnv : String → Option (JsonValue × String)) (_hne : index ≠ []) :
    TemplateConformanceEngine.canValidate filePath = true ∧
    loadEnvironment fsys aasxEnv filePath = none ∧
    validateCore index fsys aasxEnv filePath = [] := by
  have henv : loadEnvironment fsys aasxEnv filePath = none := by
    unfold loadEnvironment
    rw [hx]
    simp
  refine ⟨?_, henv, ?_⟩
  · unfold TemplateConformanceEngine.canValidate
    rw [hx]
    decide
  · unfold validateCore
    rw [henv]
    split <;> rfl

/-- Witness for C10 at a concrete XML path and singleton index. -/
theorem C10_witness :
    TemplateConformanceEngine.canValidate "/models/plant.XML" = true ∧
    loadEnvironment (fun _ => none) (fun _ => none) "/models/plant.XML" = none ∧
    validateCore [("urn:t", ⟨"urn:t", none, [], [], "/tpl.json"⟩)]
      (fun _ => none) (fun _ => none) "/models/plant.XML" = [] :=
  C10_xml_accepted_never_checked "/models/plant.XML" (by decide)
    [("urn:t", ⟨"urn:t", none, [], [], "/tpl.json"⟩)]
    (fun _ => none) (fun _ => none) (by simp)

/-- Claim C6: `discoverFiles` returns only paths with a supported
extension (case-insensitive `.aasx`/`.json`/`.xml`), includes a `.json`
file only when it parses and one of the AAS marker keys maps to an array,
and returns the result in ascending lexicographic order. -/
theorem C6_discoverFiles_filter_sorted (globFiles : List String)
    (fsys : String → Option JsonValue) :
    (∀ f ∈ discoverFiles globFiles fsys,
      f ∈ globFiles ∧
      jsToLower (extname f) ∈ SUPPORTED_EXTENSIONS ∧
      (jsToLower (extname f) = ".json" →
        ∃ parsed, fsys f = some parsed ∧
          ∃ key ∈ ["assetAdministrationShells", "submodels", "conceptDescriptions"],
            ∃ xs, jsGet parsed key = some (.arr xs))) ∧
    (discoverFiles globFiles fsys).Pairwise (fun a b => a.toList ≤ b.toList) := by
  constructor
  · intro f hf
    have hmem : f ∈ (globFiles.filter (fun file =>
        SUPPORTED_EXTENSIONS.contains (jsToLower (extname file)))).filter (fun file =>
        if jsToLower (extname file) = ".json" then looksLikeAasJson fsys file else true) := by
      unfold discoverFiles at hf
      exact List.mem_mergeSort.mp hf
    have h2 := List.mem_filter.mp hmem
    have h3 := List.mem_filter.mp h2.1
    refine ⟨h3.1, ?_, ?_⟩
    · have := h3.2
      simpa [List.elem_eq_mem] using this
    · intro hjson
      have hlook : looksLikeAasJson fsys f = true := by
        have := h2.2
        rw [hjson] at this
        simpa using this
      unfold looksLikeAasJson at hlook
      cases hfs : fsys f with
      | none => rw [hfs] at hlook; simp at hlook
      | some parsed =>
        rw [hfs] at hlook
        refine ⟨parsed, rfl, ?_⟩
        have hany := List.any_eq_true.mp hlook
        obtain ⟨key, hkey, hk⟩ := hany
        refine ⟨key, hkey, ?_⟩
        cases hg : jsGet parsed key with
        | none => rw [hg] at hk; simp at hk
        | some w =>
          cases w <;> rw [hg] at hk <;> simp at hk
          next xs => exact ⟨xs, rfl⟩
  · unfold discoverFiles
    have hs := @List.sorted_mergeSort String (fun a b : String => decide (a.toList ≤ b.toList))
      (fun a b c hab hbc => by
        simp only [decide_eq_true_eq] at *
        exact le_trans hab hbc)
      (fun a b => by
        simp only [Bool.or_eq_true, decide_eq_true_eq]
        exact le_total a.toList b.toList)
      ((globFiles.filter (fun file =>
        SUPPORTED_EXTENSIONS.contains (jsToLower (extname file)))).filter (fun file =>
        if jsToLower (extname file) = ".json" then looksLikeAasJson fsys file else true))
    exact hs.imp (fun h => by simpa using h)

/-- Witness for C6 on a three-file glob result with one non-AAS JSON. -/
theorem C6_witness :
    ("/b.json" ∈ discoverFiles ["/b.json", "/a.txt", "/c.XML"]
      (fun p => if p = "/b.json" then some (.obj [("submodels", .arr [])]) else none) ∧
     jsToLower (extname "/b.json") ∈ SUPPORTED_EXTENSIONS ∧
     True) ∧
    (discoverFiles ["/b.json", "/a.txt", "/c.XML"]
      (fun p => if p = "/b.json" then some (.obj [("submodels", .arr [])]) else none)).Pairwise
      (fun a b => a.toList ≤ b.toList) := by
  have h := C6_discoverFiles_filter_sorted ["/b.json", "/a.txt", "/c.XML"]
    (fun p => if p = "/b.json" then some (.obj [("submodels", .arr [])]) else none)
  have hmem : "/b.json" ∈ discoverFiles ["/b.json", "/a.txt", "/c.XML"]
      (fun p => if p = "/b.json" then some (.obj [("submodels", .arr [])]) else none) := by
    unfold discoverFiles
    rw [List.mem_mergeSort]
    decide
  exact ⟨⟨hmem, (h.1 "/b.json" hmem).2.1, trivial⟩, h.2⟩

theorem charDigitVal_ofNat (d : Nat) (h : d < 10) :
    charDigitVal (Char.ofNat (48 + d)) = d := by
  interval_cases d <;> decide

theorem undigits_append (ds : List Char) (c : Char) :
    undigits (ds ++ [c]) = (undigits ds) * 10 + charDigitVal c := by
  unfold undigits
  rw [List.foldl_append]
  rfl

theorem undigits_natDigits (n : Nat) : undigits (natDigits n) = n := by
  induction n using Nat.strong_induction_on with
  | _ n ih =>
    rw [natDigits]
    split
    · next h =>
      have : undigits [Char.ofNat (48 + n)] = charDigitVal (Char.ofNat (48 + n)) := by
        unfold undigits
        simp
      rw [this, charDigitVal_ofNat n h]
    · next h =>
      rw [undigits_append]
      have hlt : n / 10 < n := Nat.div_lt_self (by omega) (by omega)
      rw [ih (n / 10) hlt, charDigitVal_ofNat (n % 10) (Nat.mod_lt _ (by omega))]
      omega

theorem jsNatString_inj (m n : Nat) (h : jsNatString m = jsNatString n) : m = n := by
  have h2 : natDigits m = natDigits n := congrArg String.data h
  calc m = undigits (natDigits m) := (undigits_natDigits m).symm
    _ = undigits (natDigits n) := by rw [h2]
    _ = n := undigits_natDigits n

theorem submodel_pointer_inj (i j : Nat)
    (h : "/submodels/" ++ jsNatString i = "/submodels/" ++ jsNatString j) : i = j := by
  apply jsNatString_inj
  apply String.ext
  have hd := congrArg String.data h
  rw [String.data_append, String.data_append] at hd
  exact List.append_cancel_left hd

theorem submodelTemplateFindings_eq (index : List (String × TemplateSpec))
    (fp : String) (ip : Option String) (idx : Nat) (submodel : JsonValue)
    (tid : String) (t : TemplateSpec)
    (htid : truthyStr (getSemanticIdValue (jsGet submodel "semanticId")) = some tid)
    (ht : lookupSpec index tid = some t) :
    submodelTemplateFindings index fp ip idx submodel =
      (t.requiredIdShortPaths.filterMap (fun requiredPath =>
        if requiredPath ∉ (collectInstancePaths (arrField submodel "submodelElements")).idShort ∧
           requiredPath ∉ (collectInstancePaths (arrField submodel "submodelElements")).semantic then
          some (missingElementFinding
            { filePath := fp, internalPath := ip,
              jsonPointer := some ("/submodels/" ++ jsNatString idx) } t requiredPath)
        else none)) ++
      (t.requiredSemanticPaths.filterMap (fun requiredPath =>
        if requiredPath ∉ (collectInstancePaths (arrField submodel "submodelElements")).semantic ∧
           requiredPath ∉ (collectInstancePaths (arrField submodel "submodelElements")).idShort then
          some (missingElementFinding
            { filePath := fp, internalPath := ip,
              jsonPointer := some ("/submodels/" ++ jsNatString idx) } t requiredPath)
        else none)) := by
  unfold submodelTemplateFindings
  simp only [htid, ht]

theorem submodelTemplateFindings_no_id (index : List (String × TemplateSpec))
    (fp : String) (ip : Option String) (idx : Nat) (submodel : JsonValue)
    (htid : truthyStr (getSemanticIdValue (jsGet submodel "semanticId")) = none) :
    submodelTemplateFindings index fp ip idx submodel = [] := by
  unfold submodelTemplateFindings
  rw [htid]

theorem submodelTemplateFindings_no_template (index : List (String × TemplateSpec))
    (fp : String) (ip : Option String) (idx : Nat) (submodel : JsonValue) (tid : String)
    (htid : truthyStr (getSemanticIdValue (jsGet submodel "semanticId")) = some tid)
    (ht : lookupSpec index tid = none) :
    submodelTemplateFindings index fp ip idx submodel = [] := by
  unfold submodelTemplateFindings
  simp only [htid, ht]

/-- Claim C4: for an instance submodel whose semantic ID matches an
indexed template, `validate` emits the `missing-element` error finding for
a required path if and only if that exact path string is absent from both
of the instance's collected path sets. -/
theorem C4_missing_element_iff (index : List (String × TemplateSpec))
    (filePath : String) (internalPath : Option String) (data : JsonValue)
    (i : Nat) (s : JsonValue) (tid : String) (t : TemplateSpec) (p : String)
    (hs : (arrField data "submodels")[i]? = some s)
    (htid : truthyStr (getSemanticIdValue (jsGet s "semanticId")) = some tid)
    (ht : lookupSpec index tid = some t)
    (hp : p ∈ t.requiredIdShortPaths ∨ p ∈ t.requiredSemanticPaths) :
    missingElementFinding
        { filePath := filePath, internalPath := internalPath,
          jsonPointer := some ("/submodels/" ++ jsNatString i) } t p ∈
      validateEnvironment index filePath internalPath data ↔
    (p ∉ (collectInstancePaths (arrField s "submodelElements")).idShort ∧
     p ∉ (collectInstancePaths (arrField s "submodelElements")).semantic) := by
  constructor
  · intro hmem
    unfold validateEnvironment at hmem
    rw [List.mem_flatMap] at hmem
    obtain ⟨pair, hpair, hfmem⟩ := hmem
    obtain ⟨j, s2⟩ := pair
    have hjs : (arrField data "submodels")[j]? = some s2 :=
      List.mk_mem_enum_iff_getElem?.mp hpair
    cases htid2 : truthyStr (getSemanticIdValue (jsGet s2 "semanticId")) with
    | none =>
      rw [submodelTemplateFindings_no_id index filePath internalPath j s2 htid2] at hfmem
      simp at hfmem
    | some tid2 =>
      cases ht2 : lookupSpec index tid2 with
      | none =>
        rw [submodelTemplateFindings_no_template index filePath internalPath j s2 tid2
          htid2 ht2] at hfmem
        simp at hfmem
      | some t2 =>
        rw [submodelTemplateFindings_eq index filePath internalPath j s2 tid2 t2
          htid2 ht2, List.mem_append] at hfmem
        have hkey : ∃ p2,
            missingElementFinding
              { filePath := filePath, internalPath := internalPath,
                jsonPointer := some ("/submodels/" ++ jsNatString i) } t p =
              missingElementFinding
                { filePath := filePath, internalPath := internalPath,
                  jsonPointer := some ("/submodels/" ++ jsNatString j) } t2 p2 ∧
            p2 ∉ (collectInstancePaths (arrField s2 "submodelElements")).idShort ∧
            p2 ∉ (collectInstancePaths (arrField s2 "submodelElements")).semantic := by
          rcases hfmem with hm | hm
          · rw [List.mem_filterMap] at hm
            obtain ⟨p2, hp2, heq⟩ := hm
            by_cases hc : p2 ∉ (collectInstancePaths (arrField s2 "submodelElements")).idShort ∧
                p2 ∉ (collectInstancePaths (arrField s2 "submodelElements")).semantic
            · rw [if_pos hc] at heq
              exact ⟨p2, (Option.some.inj heq).symm, hc⟩
            · rw [if_neg hc] at heq
              exact absurd heq (by simp)
          · rw [List.mem_filterMap] at hm
            obtain ⟨p2, hp2, heq⟩ := hm
            by_cases hc : p2 ∉ (collectInstancePaths (arrField s2 "submodelElements")).semantic ∧
                p2 ∉ (collectInstancePaths (arrField s2 "submodelElements")).idShort
            · rw [if_pos hc] at heq
              exact ⟨p2, (Option.some.inj heq).symm, hc.2, hc.1⟩
            · rw [if_neg hc] at heq
              exact absurd heq (by simp)
        obtain ⟨p2, hfeq, hcond1, hcond2⟩ := hkey
        have hptr : "/submodels/" ++ jsNatString i = "/submodels/" ++ jsNatString j := by
          have hloc := congrArg (fun f => f.location.jsonPointer) hfeq
          simpa [missingElementFinding] using hloc
        have hij : i = j := submodel_pointer_inj i j hptr
        subst hij
        have hseq : s2 = s := by
          rw [hjs] at hs
          exact Option.some.inj hs
        subst hseq
        have hpe : p = p2 := by
          have hdet := congrArg (fun f => (f.details.map (fun d => d.expectedPath)).getD "") hfeq
          simpa [missingElementFinding] using hdet
        subst hpe
        exact ⟨hcond1, hcond2⟩
  · rintro ⟨h1, h2⟩
    unfold validateEnvironment
    rw [List.mem_flatMap]
    refine ⟨(i, s), List.mk_mem_enum_iff_getElem?.mpr hs, ?_⟩
    rw [submodelTemplateFindings_eq index filePath internalPath i s tid t htid ht,
      List.mem_append]
    rcases hp with hp | hp
    · left
      rw [List.mem_filterMap]
      exact ⟨p, hp, by rw [if_pos ⟨h1, h2⟩]⟩
    · right
      rw [List.mem_filterMap]
      exact ⟨p, hp, by rw [if_pos ⟨h2, h1⟩]⟩

/-- Witness for C4 at a one-submodel instance matching a one-template
index that requires the idShort path `Serial`. -/
theorem C4_witness :
    (missingElementFinding
        { filePath := "/m.json", internalPath := none,
          jsonPointer := some ("/submodels/" ++ jsNatString 0) }
        ⟨"urn:T", none, ["Serial"], [], "/tpl.json"⟩ "Serial" ∈
      validateEnvironment [("urn:T", ⟨"urn:T", none, ["Serial"], [], "/tpl.json"⟩)]
        "/m.json" none
        (.obj [("submodels", .arr [.obj [("semanticId", .str "urn:T"),
          ("submodelElements", .arr [])]])])) ↔
    ("Serial" ∉ (collectInstancePaths (arrField
        (.obj [("semanticId", .str "urn:T"), ("submodelElements", .arr [])])
        "submodelElements")).idShort ∧
     "Serial" ∉ (collectInstancePaths (arrField
        (.obj [("semanticId", .str "urn:T"), ("submodelElements", .arr [])])
        "submodelElements")).semantic) :=
  C4_missing_element_iff [("urn:T", ⟨"urn:T", none, ["Serial"], [], "/tpl.json"⟩)]
    "/m.json" none
    (.obj [("submodels", .arr [.obj [("semanticId", .str "urn:T"),
      ("submodelElements", .arr [])]])])
    0 (.obj [("semanticId", .str "urn:T"), ("submodelElements", .arr [])])
    "urn:T" ⟨"urn:T", none, ["Serial"], [], "/tpl.json"⟩ "Serial"
    rfl rfl rfl (Or.inl (List.mem_cons_self _ _))

theorem lookupSpec_append_single (idx : List (String × TemplateSpec))
    (c : String × TemplateSpec) (key : String) :
    lookupSpec (idx ++ [c]) key =
      (lookupSpec idx key).or (if c.1 == key then some c.2 else none) := by
  unfold lookupSpec
  rw [List.find?_append]
  cases hfind : idx.find? (fun kv => kv.1 == key) with
  | some kv => simp
  | none =>
    simp only [Option.map_none, Option.none_or]
    by_cases h : c.1 = key
    · rw [List.find?_cons_of_pos _ (by simpa using h)]
      simp [h]
    · rw [List.find?_cons_of_neg _ (by simpa using h)]
      simp [h]

theorem lookupSpec_insertIfAbsent (idx : List (String × TemplateSpec))
    (c : String × TemplateSpec) (key : String) :
    lookupSpec (insertIfAbsent idx c) key =
      (lookupSpec idx key).or (if c.1 == key then some c.2 else none) := by
  unfold insertIfAbsent
  split
  · next hhas =>
    by_cases h : c.1 = key
    · subst h
      unfold hasSpec at hhas
      cases hl : lookupSpec idx c.1 with
      | none => rw [hl] at hhas; simp at hhas
      | some v => simp
    · simp [h]
  · exact lookupSpec_append_single idx c key

theorem lookupSpec_foldl_insert (cs : List (String × TemplateSpec))
    (idx : List (String × TemplateSpec)) (key : String) :
    lookupSpec (cs.foldl insertIfAbsent idx) key =
      (lookupSpec idx key).or ((cs.find? (fun c => c.1 == key)).map (fun c => c.2)) := by
  induction cs generalizing idx with
  | nil => simp
  | cons c cs ih =>
    rw [List.foldl_cons, ih, lookupSpec_insertIfAbsent]
    by_cases h : c.1 = key
    · rw [List.find?_cons_of_pos _ (by simpa using h)]
      simp [h, Option.or_assoc]
    · rw [List.find?_cons_of_neg _ (by simpa using h)]
      simp [h]

theorem registerSubmodels_eq (src : String) (sms : List JsonValue)
    (idx : List (String × TemplateSpec)) :
    registerSubmodels src sms idx =
      (sms.filterMap (fun submodel =>
        (truthyStr (getSemanticIdValue (jsGet submodel "semanticId"))).map
          (fun templateId => (templateId, mkTemplateSpec templateId submodel src)))).foldl
        insertIfAbsent idx := by
  induction sms generalizing idx with
  | nil => rfl
  | cons sm rest ih =>
    unfold registerSubmodels
    rw [List.foldl_cons, List.filterMap_cons]
    cases htid : truthyStr (getSemanticIdValue (jsGet sm "semanticId")) with
    | none => exact ih idx
    | some tid => exact ih _

theorem load_aux (fsys : String → Option JsonValue) (nv : Option String) :
    ∀ (files : List String) (idx : List (String × TemplateSpec)),
    files.foldl (fun idx filePath =>
      if versionSkip nv filePath then idx
      else
        match fsys filePath with
        | none => idx
        | some data =>
          if jsFalsy data then idx
          else
            match jsGet data "submodels" with
            | some (.arr submodels) => registerSubmodels filePath submodels idx
            | _ => idx) idx =
    (files.flatMap (fun filePath =>
      if versionSkip nv filePath then []
      else
        match fsys filePath with
        | none => []
        | some data =>
          if jsFalsy data then []
          else
            match jsGet data "submodels" with
            | some (.arr submodels) =>
              submodels.filterMap (fun submodel =>
                (truthyStr (getSemanticIdValue (jsGet submodel "semanticId"))).map
                  (fun templateId => (templateId, mkTemplateSpec templateId submodel filePath)))
            | _ => [])).foldl insertIfAbsent idx := by
  intro files
  induction files with
  | nil => intro idx; rfl
  | cons f rest ih =>
    intro idx
    rw [List.foldl_cons, List.flatMap_cons, List.foldl_append, ← ih]
    congr 1
    split
    · rfl
    · split
      · rfl
      · split
        · rfl
        · split
          · next submodels _ =>
            exact registerSubmodels_eq f submodels idx
          · rfl

theorem loadTemplates_eq_foldl (files : List String) (fsys : String → Option JsonValue)
    (templateVersion : Option String) :
    loadTemplates files fsys templateVersion =
      (templateCandidates files fsys templateVersion).foldl insertIfAbsent [] := by
  unfold loadTemplates templateCandidates
  exact load_aux fsys (normalizedVersion templateVersion) files []

/-- Claim C7 (amended part): within any single file enumeration, the
first-registered template for a given semantic ID wins and later
duplicates are ignored — the index lookup equals the first candidate in
scan order. -/
theorem C7_first_registered_template_wins (files : List String)
    (fsys : String → Option JsonValue) (templateVersion : Option String)
    (tid : String) :
    lookupSpec (loadTemplates files fsys templateVersion) tid =
      ((templateCandidates files fsys templateVersion).find?
        (fun c => c.1 == tid)).map (fun c => c.2) := by
  rw [loadTemplates_eq_foldl, lookupSpec_foldl_insert]
  simp [lookupSpec]

/-- Counterexample for C7 as frozen: with two template files defining the
same semantic ID, the indexed spec (here its `sourcePath`) depends on the
order in which the file system enumerated the files. -/
theorem C7_counterexample :
    ¬ ((lookupSpec (loadTemplates ["/ta.json", "/tb.json"]
          (fun _ => some (.obj [("submodels",
            .arr [.obj [("semanticId", .str "urn:T")]])])) none) "urn:T").map
        (fun t => t.sourcePath) =
      (lookupSpec (loadTemplates ["/tb.json", "/ta.json"]
          (fun _ => some (.obj [("submodels",
            .arr [.obj [("semanticId", .str "urn:T")]])])) none) "urn:T").map
        (fun t => t.sourcePath)) := by
  decide

theorem findingLE_iff (a b : Finding) : findingLE a b = true ↔
    a.location.filePath.toList < b.location.filePath.toList ∨
    (a.location.filePath = b.location.filePath ∧
      (lineKey a < lineKey b ∨ (lineKey a = lineKey b ∧ a.ruleId.toList ≤ b.ruleId.toList))) := by
  unfold findingLE
  by_cases h1 : a.location.filePath = b.location.filePath <;>
    by_cases h2 : lineKey a = lineKey b <;>
    simp [h1, h2, lt_irrefl]

theorem findingLE_trans (a b c : Finding) (hab : findingLE a b) (hbc : findingLE b c) :
    findingLE a c := by
  rw [findingLE_iff] at hab hbc ⊢
  rcases hab with h | ⟨he, hab⟩
  · rcases hbc with h2 | ⟨he2, _⟩
    · exact Or.inl (lt_trans h h2)
    · exact Or.inl (he2 ▸ h)
  · rcases hbc with h2 | ⟨he2, hbc⟩
    · exact Or.inl (he ▸ h2)
    · refine Or.inr ⟨he.trans he2, ?_⟩
      rcases hab with h | ⟨hl, hab⟩
      · rcases hbc with h2 | ⟨hl2, _⟩
        · exact Or.inl (lt_trans h h2)
        · exact Or.inl (hl2 ▸ h)
      · rcases hbc with h2 | ⟨hl2, hbc⟩
        · exact Or.inl (hl ▸ h2)
        · exact Or.inr ⟨hl.trans hl2, le_trans hab hbc⟩

theorem findingLE_total (a b : Finding) : findingLE a b || findingLE b a := by
  simp only [Bool.or_eq_true, findingLE_iff]
  rcases lt_trichotomy a.location.filePath.toList b.location.filePath.toList with h | h | h
  · exact Or.inl (Or.inl h)
  · have hfp : a.location.filePath = b.location.filePath := String.ext h
    rcases lt_trichotomy (lineKey a) (lineKey b) with h2 | h2 | h2
    · exact Or.inl (Or.inr ⟨hfp, Or.inl h2⟩)
    · rcases le_total a.ruleId.toList b.ruleId.toList with h3 | h3
      · exact Or.inl (Or.inr ⟨hfp, Or.inr ⟨h2, h3⟩⟩)
      · exact Or.inr (Or.inr ⟨hfp.symm, Or.inr ⟨h2.symm, h3⟩⟩)
    · exact Or.inr (Or.inr ⟨hfp.symm, Or.inl h2⟩)
  · exact Or.inr (Or.inl h)

theorem dedupLoop_sublist (seen) (l : List Finding) : (dedupLoop seen l).Sublist l := by
  induction l generalizing seen with
  | nil => simp [dedupLoop]
  | cons f rest ih =>
    unfold dedupLoop
    split
    · exact (ih seen).trans (List.sublist_cons_self f rest)
    · exact (ih _).cons₂ f

theorem mem_dedupLoop_not_seen (seen) (l : List Finding) (f : Finding)
    (hf : f ∈ dedupLoop seen l) : findingKey f ∉ seen := by
  induction l generalizing seen with
  | nil => simp [dedupLoop] at hf
  | cons g rest ih =>
    unfold dedupLoop at hf
    split at hf
    · exact ih seen hf
    · next hns =>
      rcases List.mem_cons.mp hf with heq | hf
      · exact heq ▸ hns
      · have := ih _ hf
        intro hmem
        exact this (List.mem_cons_of_mem _ hmem)

theorem dedupLoop_pairwise_key (seen) (l : List Finding) :
    (dedupLoop seen l).Pairwise (fun a b => findingKey a ≠ findingKey b) := by
  induction l generalizing seen with
  | nil => simp [dedupLoop]
  | cons f rest ih =>
    unfold dedupLoop
    split
    · exact ih seen
    · refine List.Pairwise.cons (fun g hg hkey => ?_) (ih _)
      have := mem_dedupLoop_not_seen _ _ _ hg
      exact this (hkey ▸ List.mem_cons_self _ _)

theorem normalizeFindings_subset (l : List Finding) :
    ∀ f ∈ normalizeFindings l, f ∈ l := by
  intro f hf
  have hsub : (normalizeFindings l).Sublist (l.mergeSort findingLE) := dedupLoop_sublist [] _
  exact List.mem_mergeSort.mp (hsub.subset hf)

theorem dedup_length_le_of_subset (l files : List String) (h : ∀ x ∈ l, x ∈ files) :
    l.dedup.length ≤ files.length := by
  have h1 : l.dedup.Nodup := List.nodup_dedup l
  have h2 : ∀ x ∈ l.dedup, x ∈ files := fun x hx => h x (List.mem_dedup.mp hx)
  calc l.dedup.length = l.dedup.toFinset.card := (List.toFinset_card_of_nodup h1).symm
    _ ≤ files.toFinset.card := Finset.card_le_card
        (fun x hx => List.mem_toFinset.mpr (h2 x (List.mem_toFinset.mp hx)))
    _ ≤ files.length := files.toFinset_card_le

theorem validateFile_filePath (file : String) (engines : List Engine)
    (config : LintConfig)
    (hloc : ∀ e ∈ engines, ∀ fp cfg fs, e.validate fp cfg = .ok fs →
      ∀ f ∈ fs, f.location.filePath = fp) :
    ∀ f ∈ validateFile file engines config, f.location.filePath = file := by
  intro f hf
  unfold validateFile at hf
  rw [List.mem_flatten] at hf
  obtain ⟨l, hl, hfl⟩ := hf
  rw [List.mem_map] at hl
  obtain ⟨e, he, hleq⟩ := hl
  have hemem : e ∈ engines := (List.mem_filter.mp he).1
  cases hv : e.validate file config with
  | ok fs =>
    rw [hv] at hleq
    subst hleq
    exact hloc e hemem file config fs hv f hfl
  | error msg =>
    rw [hv] at hleq
    subst hleq
    rw [List.mem_singleton] at hfl
    subst hfl
    rfl

/-- Claim C8 (amended part): provided every engine locates its findings
at the file it was asked to validate, the summary satisfies
`filesWithFindings ≤ filesScanned`. -/
theorem C8_filesWithFindings_le_filesScanned (engines : List Engine)
    (config : LintConfig) (files : List String)
    (hloc : ∀ e ∈ engines, ∀ fp cfg fs, e.validate fp cfg = .ok fs →
      ∀ f ∈ fs, f.location.filePath = fp) :
    (lintSummary engines config files).filesWithFindings ≤
      (lintSummary engines config files).filesScanned := by
  have hall : ∀ f ∈ files.flatMap (fun file =>
      validateFile file (activeEngines engines config) config),
      f.location.filePath ∈ files := by
    intro f hf
    rw [List.mem_flatMap] at hf
    obtain ⟨file, hfile, hf2⟩ := hf
    have hloc2 : ∀ e ∈ activeEngines engines config, ∀ fp cfg fs,
        e.validate fp cfg = .ok fs → ∀ f ∈ fs, f.location.filePath = fp :=
      fun e he => hloc e (List.mem_filter.mp he).1
    rw [validateFile_filePath file (activeEngines engines config) config hloc2 f hf2]
    exact hfile
  show ((lintFindings engines config files).map (fun f => f.location.filePath)).dedup.length ≤
    files.length
  apply dedup_length_le_of_subset
  intro x hx
  rw [List.mem_map] at hx
  obtain ⟨f, hf, hxeq⟩ := hx
  subst hxeq
  exact hall f (normalizeFindings_subset _ f hf)

/-- Witness for C8 with a single well-behaved engine. -/
theorem C8_witness :
    (lintSummary [⟨"good", "", fun _ => true, fun _ _ => .ok []⟩]
      { paths := ["p"], failOn := [.error] } ["/a.json"]).filesWithFindings ≤
    (lintSummary [⟨"good", "", fun _ => true, fun _ _ => .ok []⟩]
      { paths := ["p"], failOn := [.error] } ["/a.json"]).filesScanned :=
  C8_filesWithFindings_le_filesScanned
    [⟨"good", "", fun _ => true, fun _ _ => .ok []⟩]
    { paths := ["p"], failOn := [.error] } ["/a.json"]
    (by
      intro e he fp cfg fs hv f hf
      rw [List.mem_singleton] at he
      subst he
      have hfs : fs = [] := (Except.ok.inj hv).symm
      subst hfs
      simp at hf)

/-- Counterexample for C8 as frozen: an engine reporting findings at two
foreign paths from one scanned file makes `filesWithFindings` exceed
`filesScanned`. -/
theorem C8_counterexample :
    ¬ ((lintSummary [⟨"multi", "", fun _ => true, fun _ _ => .ok
          [⟨"multi/a/b", "r", .error, "m", ⟨"/x", none, none, none, none⟩, "multi", none⟩,
           ⟨"multi/a/b", "r", .error, "m", ⟨"/y", none, none, none, none⟩, "multi", none⟩]⟩]
        { paths := ["p"], failOn := [.error] } ["/a.json"]).filesWithFindings ≤
      (lintSummary [⟨"multi", "", fun _ => true, fun _ _ => .ok
          [⟨"multi/a/b", "r", .error, "m", ⟨"/x", none, none, none, none⟩, "multi", none⟩,
           ⟨"multi/a/b", "r", .error, "m", ⟨"/y", none, none, none, none⟩, "multi", none⟩]⟩]
        { paths := ["p"], failOn := [.error] } ["/a.json"]).filesScanned) := by
  intro hle
  have hsort : List.mergeSort
      [(⟨"multi/a/b", "r", .error, "m", ⟨"/x", none, none, none, none⟩, "multi", none⟩ : Finding),
       ⟨"multi/a/b", "r", .error, "m", ⟨"/y", none, none, none, none⟩, "multi", none⟩]
      findingLE =
      [⟨"multi/a/b", "r", .error, "m", ⟨"/x", none, none, none, none⟩, "multi", none⟩,
       ⟨"multi/a/b", "r", .error, "m", ⟨"/y", none, none, none, none⟩, "multi", none⟩] := by
    apply List.mergeSort_of_sorted
    constructor
    · intro b hb
      rw [List.mem_singleton] at hb
      subst hb
      decide
    · exact List.pairwise_singleton _ _
  have heq : (lintSummary [⟨"multi", "", fun _ => true, fun _ _ => .ok
        [⟨"multi/a/b", "r", .error, "m", ⟨"/x", none, none, none, none⟩, "multi", none⟩,
         ⟨"multi/a/b", "r", .error, "m", ⟨"/y", none, none, none, none⟩, "multi", none⟩]⟩]
      { paths := ["p"], failOn := [.error] } ["/a.json"]) =
      computeSummary (dedupLoop [] (List.mergeSort
        [⟨"multi/a/b", "r", .error, "m", ⟨"/x", none, none, none, none⟩, "multi", none⟩,
         ⟨"multi/a/b", "r", .error, "m", ⟨"/y", none, none, none, none⟩, "multi", none⟩]
        findingLE)) ["/a.json"] := rfl
  rw [heq, hsort] at hle
  revert hle
  decide

/-- Claim C1: `Orchestrator.normalizeFindings` returns a sequence that is
sorted by (filePath ascending, then line ascending with findings lacking
a line sorted after all line-bearing findings of the same file — the code
substitutes `Number.MAX_SAFE_INTEGER` for a missing line, so a lacking-line
finding never precedes a finding of the same file whose line is below that
bound — then ruleId ascending), contains no two findings with identical
(filePath, jsonPointer, line, ruleId, message), and every retained finding
occurs in the input. -/
theorem C1_normalizeFindings_sorted_dedup_sublist (l : List Finding) :
    (normalizeFindings l).Pairwise (fun a b =>
        a.location.filePath.toList < b.location.filePath.toList ∨
        (a.location.filePath = b.location.filePath ∧
          (lineKey a < lineKey b ∨
            (lineKey a = lineKey b ∧ a.ruleId.toList ≤ b.ruleId.toList)))) ∧
    (normalizeFindings l).Pairwise (fun a b =>
        a.location.filePath = b.location.filePath →
        a.location.line = none → ∀ n, b.location.line = some n → maxSafeInteger ≤ n) ∧
    (normalizeFindings l).Pairwise (fun a b => findingKey a ≠ findingKey b) ∧
    ∀ f ∈ normalizeFindings l, f ∈ l := by
  have hsorted : (l.mergeSort findingLE).Pairwise (fun a b => findingLE a b = true) :=
    List.sorted_mergeSort findingLE_trans findingLE_total l
  have hsub : (normalizeFindings l).Sublist (l.mergeSort findingLE) :=
    dedupLoop_sublist [] _
  have hple : (normalizeFindings l).Pairwise (fun a b => findingLE a b = true) :=
    hsorted.sublist hsub
  refine ⟨hple.imp (fun h => (findingLE_iff _ _).mp h), ?_, dedupLoop_pairwise_key [] _, ?_⟩
  · refine hple.imp (fun {a b} h => ?_)
    intro hfp hla n hlb
    rcases (findingLE_iff _ _).mp h with hlt | ⟨_, hrest⟩
    · exact absurd hlt (hfp ▸ lt_irrefl _)
    · have hle : lineKey a ≤ lineKey b := by
        rcases hrest with h2 | ⟨h2, _⟩
        · exact le_of_lt h2
        · exact le_of_eq h2
      simpa [lineKey, hla, hlb] using hle
  · intro f hf
    exact List.mem_mergeSort.mp (hsub.subset hf)

/-- Claim C2: if one applicable engine's `validate` rejects, per-file
validation still returns every other engine's findings unchanged (the
findings of the engines before and after it are exactly the two
surrounding segments), and contributes for the failing engine exactly one
finding with severity `error`, ruleId `"{engineName}/internal/engine-error"`,
a message containing the failure message, and a location that is the file
path with no jsonPointer, line, or column. -/
theorem C2_engine_failure_isolation (filePath : String) (config : LintConfig)
    (pre post : List Engine) (e : Engine) (msg : String)
    (hc : e.canValidate filePath = true)
    (he : e.validate filePath config = .error msg) :
    validateFile filePath (pre ++ e :: post) config =
      validateFile filePath pre config ++
        engineErrorFinding e.name filePath msg :: validateFile filePath post config ∧
    (engineErrorFinding e.name filePath msg).severity = .error ∧
    (engineErrorFinding e.name filePath msg).ruleId = e.name ++ "/internal/engine-error" ∧
    (∃ a b, (engineErrorFinding e.name filePath msg).message = a ++ msg ++ b) ∧
    (engineErrorFinding e.name filePath msg).location =
      { filePath := filePath, internalPath := none, jsonPointer := none,
        line := none, column := none } := by
  refine ⟨?_, rfl, rfl, ⟨"Validation engine \"" ++ e.name ++ "\" failed: ", "", by
    simp [engineErrorFinding]⟩, rfl⟩
  simp [validateFile, List.filter_append, List.filter_cons, hc, he]

/-- Witness for C2 at a concrete file, config and engine triple. -/
theorem C2_witness :
    (let failing : Engine :=
      { name := "boom", description := "", canValidate := fun _ => true,
        validate := fun _ _ => .error "kaput" }
     let ok : Engine :=
      { name := "fine", description := "", canValidate := fun _ => true,
        validate := fun _ _ => .ok [] }
     let config : LintConfig := { paths := ["x"], failOn := [.error] }
     validateFile "/m.json" ([ok] ++ failing :: []) config =
       validateFile "/m.json" [ok] config ++
         engineErrorFinding "boom" "/m.json" "kaput" :: validateFile "/m.json" [] config ∧
     (engineErrorFinding "boom" "/m.json" "kaput").severity = .error ∧
     (engineErrorFinding "boom" "/m.json" "kaput").ruleId = "boom" ++ "/internal/engine-error" ∧
     (∃ a b, (engineErrorFinding "boom" "/m.json" "kaput").message = a ++ "kaput" ++ b) ∧
     (engineErrorFinding "boom" "/m.json" "kaput").location =
       { filePath := "/m.json", internalPath := none, jsonPointer := none,
         line := none, column := none }) :=
  C2_engine_failure_isolation "/m.json" { paths := ["x"], failOn := [.error] }
    [{ name := "fine", description := "", canValidate := fun _ => true,
       validate := fun _ _ => .ok [] }] [] _ "kaput" rfl rfl

/-- Claim C9: the spec documents every ruleId as the three-segment form
"engine/category/code", and the orchestrator's synthetic engine-error
finding indeed has three segments; but both ruleIds the template
conformance engine emits ("template-conformance/templates-not-found" and
"template-conformance/missing-element") have only two segments, so the
documented format invariant fails on the engine's findings. -/
theorem C9_ruleId_segment_mismatch :
    ruleIdSegmentCount (engineErrorFinding "template-conformance" "/f.json" "boom").ruleId
      = 3 ∧
    ruleIdSegmentCount (templatesNotFoundFinding "/f.json").ruleId = 2 ∧
    ruleIdSegmentCount (missingElementFinding { filePath := "/f.json" }
      ⟨"urn:T", none, [], [], "/tpl.json"⟩ "Prop1").ruleId = 2 := by
  refine ⟨?_, ?_, ?_⟩ <;> decide

end Aas
